import Mathlib

/-!
Verification of the markdown-replace transformation engine
(`plugins/markdown-replace.js` of the site repository).

The document tree is a shallow embedding of the mdast node shapes the
plugin reads and writes.  Machine strings are Lean `String`s (the code
only manipulates BMP/ASCII characters at marker boundaries, so UTF-16
unit operations coincide with `Char`-level operations everywhere the
plugin slices values).  JavaScript exceptions are modelled with
`Except String`.
-/

/-- mdast-like node, restricted to the kinds the plugin inspects.
`other` stands for every remaining pass-through kind. A `blockquote`
carries no string value, exactly as in mdast. -/
inductive MdNode where
  | text (value : String)
  | html (value : String)
  | image (url : String) (alt : String)
  | link (children : List MdNode)
  | tableRow (children : List MdNode)
  | tableCell (children : List MdNode)
  | paragraph (children : List MdNode)
  | table (children : List MdNode)
  | blockquote (children : List MdNode)
  | root (children : List MdNode)
  | other

/-- Fuel-bounded textual observation of a sibling list; the fuel is
spent on every recursive call, so any fuel beyond the node count of the
input yields a faithful serialization. Used only to separate concrete
trees in proofs of disequality. -/
def dumpL : Nat → List MdNode → String
  | 0, _ => "?"
  | _ + 1, [] => ""
  | fuel + 1, .text v :: rest => "text(" ++ v ++ ");" ++ dumpL fuel rest
  | fuel + 1, .html v :: rest => "html(" ++ v ++ ");" ++ dumpL fuel rest
  | fuel + 1, .image u a :: rest =>
      "image(" ++ u ++ "," ++ a ++ ");" ++ dumpL fuel rest
  | fuel + 1, .link cs :: rest =>
      "link(" ++ dumpL fuel cs ++ ");" ++ dumpL fuel rest
  | fuel + 1, .tableRow cs :: rest =>
      "tableRow(" ++ dumpL fuel cs ++ ");" ++ dumpL fuel rest
  | fuel + 1, .tableCell cs :: rest =>
      "tableCell(" ++ dumpL fuel cs ++ ");" ++ dumpL fuel rest
  | fuel + 1, .paragraph cs :: rest =>
      "paragraph(" ++ dumpL fuel cs ++ ");" ++ dumpL fuel rest
  | fuel + 1, .table cs :: rest =>
      "table(" ++ dumpL fuel cs ++ ");" ++ dumpL fuel rest
  | fuel + 1, .blockquote cs :: rest =>
      "blockquote(" ++ dumpL fuel cs ++ ");" ++ dumpL fuel rest
  | fuel + 1, .root cs :: rest =>
      "root(" ++ dumpL fuel cs ++ ");" ++ dumpL fuel rest
  | fuel + 1, .other :: rest => "other;" ++ dumpL fuel rest

/-! ## Ordinal Formatter: `numberToChinese` -/

/-- The basic numeral array `['零','一',…,'九']` of the source. -/
def cnDigits : List String :=
  ["零", "一", "二", "三", "四", "五", "六", "七", "八", "九"]

/-- `digits[k]` of the source (out-of-range access is irrelevant on the
guarded domain). -/
def cnDigit (k : Nat) : String := cnDigits.getD k ""

/-- The computation performed by `numberToChinese` after its guard:
single digits map to the basic numeral; for two-digit numbers the tens
place renders as `十` (tens digit 1) or `<digit>十`, and a nonzero ones
digit is appended. -/
def chineseCore (n : Nat) : String :=
  if n < 10 then cnDigit n
  else
    (if n / 10 = 1 then "十" else cnDigit (n / 10) ++ "十") ++
      (if n % 10 ≠ 0 then cnDigit (n % 10) else "")

/-- `numberToChinese` on a JavaScript number, modelled as a rational:
`!Number.isInteger(num) || num < 1 || num > 99` throws, otherwise the
numeral of the (integer) value is returned.  Every integer in `[1,99]`
is exactly representable in floating point, so the rational model is
faithful on the guarded path. -/
def numberToChinese (q : ℚ) : Except String String :=
  if ¬ q.den = 1 ∨ q < 1 ∨ 99 < q then
    Except.error ("Please input an integer between 1-99: " ++ toString q)
  else
    Except.ok (chineseCore q.num.toNat)

/-- `numberToChinese` at the internal call sites, which always pass the
natural-number value of a counter. -/
def numberToChineseNat (n : Nat) : Except String String :=
  if n < 1 ∨ 99 < n then
    Except.error ("Please input an integer between 1-99: " ++ Nat.repr n)
  else
    Except.ok (chineseCore n)

/-! ## Decimal rendering of counters (JavaScript `${n}`) -/

/-- Decimal digit character of `n < 10`. -/
def digitCh (n : Nat) : Char := Char.ofNat (48 + n)

/-- Fuel-bounded most-significant-first decimal digit list of `n`;
any fuel above the digit count is enough. -/
def natToDecL : Nat → Nat → List Char
  | 0, _ => []
  | f + 1, n =>
      if n < 10 then [digitCh n] else natToDecL f (n / 10) ++ [digitCh (n % 10)]

/-- Decimal rendering of a counter value, as JavaScript template
interpolation `${n}` renders it. -/
def natToDec (n : Nat) : String := String.mk (natToDecL (n + 1) n)

/-- Decimal decoding, the left fold inverse of `natToDec`. -/
def decOfChars (l : List Char) : Nat :=
  l.foldl (fun acc c => acc * 10 + (c.toNat - 48)) 0

/-! ## Character-level regex models

Each JavaScript `String.replace(regex, template)` call of the plugin is
modelled by a character scanner for that one pattern, driven by a
global leftmost-match loop (`gsubF`): at every position the matcher
either consumes `k ≥ 1` characters and emits a replacement, or the
scanner advances one character.  This is exactly the semantics of a
global, non-sticky JavaScript `replace` for patterns that cannot match
the empty string (all patterns below are of that kind). -/

/-- Consume literal prefix `p`, returning the remainder. -/
def eatL : List Char → List Char → Option (List Char)
  | [], l => some l
  | _ :: _, [] => none
  | p :: ps, c :: cs => if c = p then eatL ps cs else none

/-- Global-replace driver: `m l` reports a replacement together with
the number of consumed characters at the current position. Fuel is
spent one unit per scanned position, so `length + 1` always suffices. -/
def gsubF (m : List Char → Option (List Char × Nat)) : Nat → List Char → List Char
  | 0, l => l
  | _ + 1, [] => []
  | fuel + 1, c :: cs =>
      match m (c :: cs) with
      | some (rep, k + 1) => rep ++ gsubF m fuel (cs.drop k)
      | some (_, 0) => c :: gsubF m fuel cs
      | none => c :: gsubF m fuel cs

/-- String-level wrapper for `gsubF`. -/
def gsubS (m : List Char → Option (List Char × Nat)) (s : String) : String :=
  String.mk (gsubF m (s.data.length + 1) s.data)

/-- `c` is in the character class `[一-龥]`. -/
def isCJK (c : Char) : Bool := 0x4e00 ≤ c.toNat && c.toNat ≤ 0x9fa5

/-- `c` is in the character class `[a-zA-Z0-9]`. -/
def isAlnumAscii (c : Char) : Bool :=
  ('a' ≤ c && c ≤ 'z') || ('A' ≤ c && c ≤ 'Z') || ('0' ≤ c && c ≤ '9')

/-- JavaScript `\s` (space, tab, line terminators, and the Unicode
space separators, by codepoint). -/
def isJsWs (c : Char) : Bool :=
  c = ' ' || c = '\t' || c = '\n' || c = '\r' ||
    c.toNat = 0x0b || c.toNat = 0x0c ||
    c.toNat = 0xa0 || c.toNat = 0x1680 ||
    (0x2000 <= c.toNat && c.toNat <= 0x200a) ||
    c.toNat = 0x2028 || c.toNat = 0x2029 || c.toNat = 0x202f ||
    c.toNat = 0x205f || c.toNat = 0x3000 || c.toNat = 0xfeff

/-- Lazy `([^\]]*?)\]`: capture up to the first `]`. -/
def grabToRBracket : List Char → Option (List Char × List Char)
  | [] => none
  | ']' :: r => some ([], r)
  | c :: r =>
      match grabToRBracket r with
      | some (g, rest) => some (c :: g, rest)
      | none => none

/-- Lazy `(.*?)\]` where `.` excludes newlines: capture up to the first
`]` on the current line. -/
def grabToR : List Char → Option (List Char × List Char)
  | [] => none
  | ']' :: r => some ([], r)
  | '\n' :: _ => none
  | c :: r =>
      match grabToR r with
      | some (g, rest) => some (c :: g, rest)
      | none => none

/-- Lazy `(.*?)\]\]` where `.` excludes newlines: capture up to the
first `]]` on the current line. -/
def grabToRR : List Char → Option (List Char × List Char)
  | [] => none
  | ']' :: ']' :: r => some ([], r)
  | '\n' :: _ => none
  | c :: r =>
      match grabToRR r with
      | some (g, rest) => some (c :: g, rest)
      | none => none

/-- Lazy `([^」]*?)」`: capture up to the first `」` (newlines allowed,
the class only excludes `」`). -/
def grabToCJKQuote : List Char → Option (List Char × List Char)
  | [] => none
  | '」' :: r => some ([], r)
  | c :: r =>
      match grabToCJKQuote r with
      | some (g, rest) => some (c :: g, rest)
      | none => none

/-- Backtracking for `(#?.*?)\|(.*?)\]\]`-style bodies: the first
capture extends lazily to the first `|` after which a `]]` still occurs
on the line; the second capture extends to that `]]`. -/
def lk1Aux (acc : List Char) : List Char → Option (List Char × List Char × List Char)
  | [] => none
  | '\n' :: _ => none
  | '|' :: r =>
      match grabToRR r with
      | some (g2, rest) => some (acc.reverse, g2, rest)
      | none => lk1Aux ('|' :: acc) r
  | c :: r => lk1Aux (c :: acc) r

/-! ### One matcher per `replace` call of the plugin -/

/-- `/%20/g` → `' '` (the pre-normalization step). -/
def m20 : List Char → Option (List Char × Nat)
  | '%' :: '2' :: '0' :: _ => some ([' '], 3)
  | _ => none

/-- `/\[\[(#.*?)\|(.*?)\]\]/g` → `<a href="$1">$2</a>`. -/
def mLink1 (l : List Char) : Option (List Char × Nat) :=
  match l with
  | '[' :: '[' :: '#' :: r =>
      match lk1Aux [] r with
      | some (g1t, g2, rest) =>
          some ("<a href=\"".data ++ '#' :: g1t ++ "\">".data ++ g2 ++
              "</a>".data, l.length - rest.length)
      | none => none
  | _ => none

/-- `/\[\[(#.*?)\]\]/g` → `<a href="$1">$1</a>`. -/
def mLink2 (l : List Char) : Option (List Char × Nat) :=
  match l with
  | '[' :: '[' :: '#' :: r =>
      match grabToRR r with
      | some (g1t, rest) =>
          some ("<a href=\"".data ++ '#' :: g1t ++ "\">".data ++ '#' :: g1t ++
              "</a>".data, l.length - rest.length)
      | none => none
  | _ => none

/-- `/\[\[(?!#)(.*?)\|(.*?)\]\]/g` → `<a href="/post/$1">$2</a>`. -/
def mLink3 (l : List Char) : Option (List Char × Nat) :=
  match l with
  | '[' :: '[' :: r =>
      if r.head? = some '#' then none
      else
        match lk1Aux [] r with
        | some (g1, g2, rest) =>
            some ("<a href=\"/post/".data ++ g1 ++ "\">".data ++ g2 ++
                "</a>".data, l.length - rest.length)
        | none => none
  | _ => none

/-- `/\[\[(?!#)(.*?)\]\]/g` → `<a href="/post/$1">$1</a>`. -/
def mLink4 (l : List Char) : Option (List Char × Nat) :=
  match l with
  | '[' :: '[' :: r =>
      if r.head? = some '#' then none
      else
        match grabToRR r with
        | some (g1, rest) =>
            some ("<a href=\"/post/".data ++ g1 ++ "\">".data ++ g1 ++
                "</a>".data, l.length - rest.length)
        | none => none
  | _ => none

/-- `/\[\^(图.*?)\]/g` →
`<a href="#img_backward_link_$1" id="img_forward_link_$1">$1</a>`. -/
def mImgRef (l : List Char) : Option (List Char × Nat) :=
  match l with
  | '[' :: '^' :: '图' :: r =>
      match grabToR r with
      | some (g1t, rest) =>
          some ("<a href=\"#img_backward_link_".data ++ '图' :: g1t ++
              "\" id=\"img_forward_link_".data ++ '图' :: g1t ++
              "\">".data ++ '图' :: g1t ++ "</a>".data, l.length - rest.length)
      | none => none
  | _ => none

/-- `/\[\^(表.*?)\]/g` →
`<a href="#tbl_backward_link_$1" id="tbl_forward_link_$1">$1</a>`. -/
def mTblRef (l : List Char) : Option (List Char × Nat) :=
  match l with
  | '[' :: '^' :: '表' :: r =>
      match grabToR r with
      | some (g1t, rest) =>
          some ("<a href=\"#tbl_backward_link_".data ++ '表' :: g1t ++
              "\" id=\"tbl_forward_link_".data ++ '表' :: g1t ++
              "\">".data ++ '表' :: g1t ++ "</a>".data, l.length - rest.length)
      | none => none
  | _ => none

/-- `/「([^」]*?)」/g` → `「<em>$1</em>」`. -/
def mEm (l : List Char) : Option (List Char × Nat) :=
  match l with
  | '「' :: r =>
      match grabToCJKQuote r with
      | some (g, rest) =>
          some ('「' :: "<em>".data ++ g ++ "</em>".data ++ ['」'],
            l.length - rest.length)
      | none => none
  | _ => none

/-- `/([一-龥])([a-zA-Z0-9])/g` → `$1 $2`. -/
def mSpace1 : List Char → Option (List Char × Nat)
  | c1 :: c2 :: _ =>
      if isCJK c1 && isAlnumAscii c2 then some ([c1, ' ', c2], 2) else none
  | _ => none

/-- `/([a-zA-Z0-9])([一-龥])/g` → `$1 $2`. -/
def mSpace2 : List Char → Option (List Char × Nat)
  | c1 :: c2 :: _ =>
      if isAlnumAscii c1 && isCJK c2 then some ([c1, ' ', c2], 2) else none
  | _ => none

/-- `/(一-龥)\s+([一-龥])/g` → `$1$2`.  Outside a
character class, `一-龥` is the three-character literal
`一-龥`, so this pattern only matches that literal followed by
whitespace and a CJK character. -/
def mPunct (l : List Char) : Option (List Char × Nat) :=
  match l with
  | '一' :: '-' :: '龥' :: r =>
      let ws := r.takeWhile isJsWs
      if ws.isEmpty then none
      else
        match (r.drop ws.length).head? with
        | some c2 =>
            if isCJK c2 then some (['一', '-', '龥', c2], 3 + ws.length + 1)
            else none
        | none => none
  | _ => none

/-- Replacement body of the `『`/`』` hiding rule. -/
def spanWrap (g : List Char) : List Char :=
  "<span style=\"display: none;\">".data ++ g ++ "</span>".data

/-- `/(『\s*|\s*』)/g` → `<span style="display: none;">$1</span>`. -/
def mSpan (l : List Char) : Option (List Char × Nat) :=
  match l with
  | '『' :: r =>
      let ws := r.takeWhile isJsWs
      some (spanWrap ('『' :: ws), 1 + ws.length)
  | _ =>
      let ws := l.takeWhile isJsWs
      if (l.drop ws.length).head? = some '』' then
        some (spanWrap (ws ++ ['』']), ws.length + 1)
      else none

/-- `/—(——.*)/g` →
`<p style="text-align: right; text-indent: 0; padding: 0 2px 0 0;">$1</p>`. -/
def mDash (l : List Char) : Option (List Char × Nat) :=
  match l with
  | '—' :: '—' :: '—' :: r =>
      let line := r.takeWhile (fun c => c != '\n')
      some ("<p style=\"text-align: right; text-indent: 0; padding: 0 2px 0 0;\">".data ++
          '—' :: '—' :: line ++ "</p>".data, 3 + line.length)
  | _ => none

/-- Greedy `(.*)\x7d` on one line: split at the last `}` of the line. -/
def lastBrace : List Char → Option (List Char × List Char)
  | [] => none
  | c :: r =>
      match lastBrace r with
      | some (a, b) => some (c :: a, b)
      | none => if c = '\x7d' then some ([], r) else none

/-- Driver for the six `^`-anchored alignment directives: without the
`m` flag the anchor only matches at the start of the value, so a global
replace performs at most one substitution, at position 0. -/
def anchoredRepl (lit : List Char) (wrap : List Char → List Char)
    (s : String) : String :=
  match eatL lit s.data with
  | some r =>
      let line := r.takeWhile (fun c => c != '\n')
      match lastBrace line with
      | some (g1, after) => String.mk (wrap g1 ++ after ++ r.drop line.length)
      | none => s
  | none => s

/-- Template of `/^\.Right{(.*)}/g`. -/
def dirRightU (g : List Char) : List Char :=
  " <p style=\"text-align: right;  text-indent: 0;\">".data ++ g ++ "</p>".data

/-- Template of `/^\.Center{(.*)}/g`. -/
def dirCenterU (g : List Char) : List Char :=
  "<p style=\"text-align: center; text-indent: 0;\">".data ++ g ++ "</p>".data

/-- Template of `/^\.Left{(.*)}/g`. -/
def dirLeftU (g : List Char) : List Char :=
  "  <p style=\"text-align: left;   text-indent: 0;\">".data ++ g ++ "</p>".data

/-- Template of `/^\.right{(.*)}/g`. -/
def dirRightL (g : List Char) : List Char :=
  " <p style=\"font-style: italic; text-align: right;  text-indent: 0;\">".data ++
    g ++ "</p>".data

/-- Template of `/^\.center{(.*)}/g`. -/
def dirCenterL (g : List Char) : List Char :=
  "<p style=\"font-style: italic; text-align: center; text-indent: 0;\">".data ++
    g ++ "</p>".data

/-- Template of `/^\.left{(.*)}/g`. -/
def dirLeftL (g : List Char) : List Char :=
  "  <p style=\"font-style: italic; text-align: left;   text-indent: 0;\">".data ++
    g ++ "</p>".data

/-- The ordered list of string rewriters the orchestrator applies after
the footnote / figure / table passes, paired with the two applied
before them; see `passChain` for the exact source ordering. -/
def replPct (s : String) : String := gsubS m20 s

/-- String rewriter for internal `[[#a|d]]` links. -/
def replLink1 (s : String) : String := gsubS mLink1 s

/-- String rewriter for internal `[[#a]]` links. -/
def replLink2 (s : String) : String := gsubS mLink2 s

/-- String rewriter for cross-post `[[t|d]]` links. -/
def replLink3 (s : String) : String := gsubS mLink3 s

/-- String rewriter for cross-post `[[t]]` links. -/
def replLink4 (s : String) : String := gsubS mLink4 s

/-- String rewriter for `[^图…]` figure references. -/
def replImgRef (s : String) : String := gsubS mImgRef s

/-- String rewriter for `[^表…]` table references. -/
def replTblRef (s : String) : String := gsubS mTblRef s

/-- String rewriter for `「…」` emphasis. -/
def replEm (s : String) : String := gsubS mEm s

/-- String rewriter inserting a space between CJK and Latin/digit. -/
def replSpace1 (s : String) : String := gsubS mSpace1 s

/-- String rewriter inserting a space between Latin/digit and CJK. -/
def replSpace2 (s : String) : String := gsubS mSpace2 s

/-- String rewriter of the (vestigial) punctuation-collapse pattern. -/
def replPunct (s : String) : String := gsubS mPunct s

/-- String rewriter hiding `『`/`』` marks. -/
def replSpan (s : String) : String := gsubS mSpan s

/-- String rewriter for `———` attribution lines. -/
def replDash (s : String) : String := gsubS mDash s

/-- String rewriter for `.Right{…}`. -/
def replRightU (s : String) : String := anchoredRepl ".Right\x7b".data dirRightU s

/-- String rewriter for `.Center{…}`. -/
def replCenterU (s : String) : String :=
  anchoredRepl ".Center\x7b".data dirCenterU s

/-- String rewriter for `.Left{…}`. -/
def replLeftU (s : String) : String := anchoredRepl ".Left\x7b".data dirLeftU s

/-- String rewriter for `.right{…}`. -/
def replRightL (s : String) : String := anchoredRepl ".right\x7b".data dirRightL s

/-- String rewriter for `.center{…}`. -/
def replCenterL (s : String) : String :=
  anchoredRepl ".center\x7b".data dirCenterL s

/-- String rewriter for `.left{…}`. -/
def replLeftL (s : String) : String := anchoredRepl ".left\x7b".data dirLeftL s

/-! ## Node helpers -/

/-- `node.children` (container kinds only). -/
def childrenOf : MdNode → Option (List MdNode)
  | .link cs => some cs
  | .tableRow cs => some cs
  | .tableCell cs => some cs
  | .paragraph cs => some cs
  | .table cs => some cs
  | .blockquote cs => some cs
  | .root cs => some cs
  | _ => none

/-- Replace `node.children` wholesale, preserving the node kind. -/
def setChildren (n : MdNode) (cs : List MdNode) : MdNode :=
  match n with
  | .link _ => .link cs
  | .tableRow _ => .tableRow cs
  | .tableCell _ => .tableCell cs
  | .paragraph _ => .paragraph cs
  | .table _ => .table cs
  | .blockquote _ => .blockquote cs
  | .root _ => .root cs
  | x => x

/-- `node.value` for the value-bearing kinds (text, html). -/
def valueOf : MdNode → Option String
  | .text v => some v
  | .html v => some v
  | _ => none

/-- Assignment `node.value = v`.  On kinds without a value slot the JS
code would add an inert property that no later read of the plugin ever
observes (every read of `.value` is guarded by a text/html type test,
except the quote-block crash modelled in `regexFn`), so the model keeps
such nodes unchanged. -/
def setValue (v : String) : MdNode → MdNode
  | .text _ => .text v
  | .html _ => .html v
  | c => c

/-! ## Pattern Rewriter: the `regex(node, re, template)` helper -/

/-- The `regex` helper of the plugin over a sibling list.  Text, html
and blockquote children are candidates; all other kinds pass through.
A candidate's value is rewritten wholesale; an unchanged html child is
kept, an unchanged text child is re-emitted as a text node.  A
blockquote node has no `value`, so `child.value.replace` throws a
`TypeError`, modelled as `Except.error`. -/
def regexFn (repl : String → String) : List MdNode → Except String (List MdNode)
  | [] => Except.ok []
  | child :: rest =>
      match child with
      | .text v => do
          let out ← regexFn repl rest
          Except.ok ((if repl v = v then .text v else .html (repl v)) :: out)
      | .html v => do
          let out ← regexFn repl rest
          Except.ok ((if repl v = v then .html v else .html (repl v)) :: out)
      | .blockquote _ =>
          Except.error "TypeError: cannot read value of a blockquote"
      | c => do
          let out ← regexFn repl rest
          Except.ok (c :: out)

/-! ## Inline Pattern Splicer: `transformCustomFootnotes` -/

/-- `value.endsWith('^[')` (both marker characters are single UTF-16
units, so the character-level test is exact). -/
def endsWithCaretOpen (v : String) : Bool :=
  match v.data.reverse with
  | '[' :: '^' :: _ => true
  | _ => false

/-- `value.startsWith(']')`. -/
def startsWithCloseBracket (v : String) : Bool :=
  match v.data with
  | ']' :: _ => true
  | _ => false

/-- The three-node window test of `transformCustomFootnotes`: the
current head must be a text node ending with `^[`, the next node a
link with at least one child, and the node after that a text node
starting with `]`.  On success the matched components are returned. -/
def tcfMatch (h r : MdNode) (rs : List MdNode) :
    Option (String × List MdNode × String × List MdNode) :=
  match h, r, rs with
  | .text v1, .link lcs, .text v3 :: rest3 =>
      if endsWithCaretOpen v1 && !lcs.isEmpty && startsWithCloseBracket v3 then
        some (v1, lcs, v3, rest3)
      else none
  | _, _, _ => none

/-- The while-loop of `transformCustomFootnotes`: `h` is the current
head of the work list, `rest` the remainder.  On a three-node match
one merged text node is emitted, the three nodes are consumed and the
leftover of the third value (if nonempty) is re-injected as a fresh
text node. -/
def tcfGoF : Nat → MdNode → List MdNode → List MdNode
  | 0, h, rest => h :: rest
  | fuel + 1, h, rest =>
      match rest with
      | [] => [h]
      | r :: rs =>
          match tcfMatch h r rs with
          | some (v1, lcs, v3, rest3) =>
              let lt := match lcs.head? with
                | some c => (valueOf c).getD ""
                | none => ""
              let merged := MdNode.text (v1.dropRight 2 ++ "[^" ++ lt ++ "]")
              let rem := v3.drop 1
              if rem = "" then
                match rest3 with
                | [] => [merged]
                | r2 :: rs2 => merged :: tcfGoF fuel r2 rs2
              else
                merged :: tcfGoF fuel (.text rem) rest3
          | none => h :: tcfGoF fuel r rs

/-- The splice loop at adequate fuel: every loop step removes at least
one node from the work list, so `length + 1` steps always finish. -/
def tcfGoA (h : MdNode) (rest : List MdNode) : List MdNode :=
  tcfGoF (rest.length + 1) h rest

/-- The merge loop of `transformCustomFootnotes`: adjacent text nodes
are concatenated into the previously emitted node. -/
def mergeA (h : MdNode) : List MdNode → List MdNode
  | [] => [h]
  | c :: cs =>
      match h, c with
      | .text a, .text b => mergeA (.text (a ++ b)) cs
      | _, _ => h :: mergeA c cs

/-- `transformCustomFootnotes(node)`: splice, then coalesce adjacent
text nodes (the `length < 2` early return of the source is the identity
of the merge loop on such lists). -/
def transformCustomFootnotes (children : List MdNode) : List MdNode :=
  match (match children with
         | [] => []
         | c :: cs => tcfGoA c cs) with
  | [] => []
  | c :: cs => mergeA c cs

/-! ## Footnote Collector: `footnoteRegex` -/

/-- A collected footnote `{num, content}`. -/
structure FnEntry where
  num : Nat
  content : String
deriving DecidableEq

/-- `comment_forward_link_${n}`. -/
def mkFwdId (n : Nat) : String := "comment_forward_link_" ++ natToDec n

/-- `comment_backward_link_${n}`. -/
def mkBwdId (n : Nat) : String := "comment_backward_link_" ++ natToDec n

/-- The inline reference link emitted for footnote number `n`. -/
def fnRefHtml (n : Nat) : String :=
  "<a class=\"comment_forward_link\" href=\"#" ++ mkBwdId n ++ "\" id=\"" ++
    mkFwdId n ++ "\">[" ++ natToDec n ++ "]</a>"

/-- Scanner for `value.split(/(\[\^(?!表|图)([^\]]*?)\])/g)`, returning
the alternation of plain segments (`Sum.inl`, never empty) and captured
marker contents (`Sum.inr`).  A candidate `[^` whose next character is
the reserved `表`/`图` prefix, or with no closing `]` ahead, fails and
scanning resumes one character later, exactly like the regex engine.
Fuel is spent one unit per consumed character, so `length + 1`
suffices. -/
def fnScanF : Nat → List Char → List Char → List (List Char ⊕ List Char)
  | 0, acc, l =>
      if (acc.reverse ++ l).isEmpty then [] else [Sum.inl (acc.reverse ++ l)]
  | _ + 1, acc, [] => if acc.isEmpty then [] else [Sum.inl acc.reverse]
  | fuel + 1, acc, '[' :: '^' :: r =>
      if r.head? = some '表' || r.head? = some '图' then
        fnScanF fuel ('[' :: acc) ('^' :: r)
      else
        match grabToRBracket r with
        | some (content, post) =>
            (if acc.isEmpty then [] else [Sum.inl acc.reverse]) ++
              Sum.inr content :: fnScanF fuel [] post
        | none => fnScanF fuel ('[' :: acc) ('^' :: r)
  | fuel + 1, acc, c :: r => fnScanF fuel (c :: acc) r

/-- String-level footnote split. -/
def fnScan (s : String) : List (List Char ⊕ List Char) :=
  fnScanF (s.data.length + 1) [] s.data

/-- The `parts` iteration of `footnoteRegex` on one split value:
nonempty plain segments become text nodes; each captured content
increments the counter, records an entry, and emits a reference
link. -/
def fnParts (n : Nat) : List (List Char ⊕ List Char) →
    Nat × List FnEntry × List MdNode
  | [] => (n, [], [])
  | Sum.inl p :: rest =>
      let (nn, es, ns) := fnParts n rest
      (nn, es, if p.isEmpty then ns else MdNode.text (String.mk p) :: ns)
  | Sum.inr c :: rest =>
      let (nn, es, ns) := fnParts (n + 1) rest
      (nn, ⟨n + 1, String.mk c⟩ :: es, MdNode.html (fnRefHtml (n + 1)) :: ns)

/-- Does a split contain a captured marker?  (Equivalent to the
`parts.length === 1` no-match test of the source: a split with no match
is the single original segment.) -/
def hasFnMarker (parts : List (List Char ⊕ List Char)) : Bool :=
  parts.any (fun p => p.isRight)

/-- `footnoteRegex(node)` over a sibling list, threading the footnote
counter and the collected entries (the module-global state of the
source). -/
def footnoteRegexFn : Nat → List FnEntry → List MdNode →
    Nat × List FnEntry × List MdNode
  | n, es, [] => (n, es, [])
  | n, es, child :: rest =>
      match valueOf child with
      | some v =>
          let parts := fnScan v
          let (n1, e1, ns1) :=
            if hasFnMarker parts then fnParts n parts else (n, [], [child])
          let (n2, es2, ns2) := footnoteRegexFn n1 (es ++ e1) rest
          (n2, es2, ns1 ++ ns2)
      | none =>
          let (n2, es2, ns2) := footnoteRegexFn n es rest
          (n2, es2, child :: ns2)

/-! ## Figure Numbering: `imgRegex` -/

/-- Global replace of `"` by `&quot;` (alt-text sanitization). -/
def escQuotes (s : String) : String :=
  gsubS (fun l => match l with
    | '"' :: _ => some ("&quot;".data, 1)
    | _ => none) s

/-- Suffix of the first occurrence of `pat` (JavaScript `indexOf`-based
slicing), or `none` when absent. -/
def afterSub (pat : List Char) : List Char → Option (List Char)
  | [] => none
  | c :: r =>
      match eatL pat (c :: r) with
      | some suffix => some suffix
      | none => afterSub pat r

/-- The image-URL rewrite: a URL containing `attachments/` is replaced
by `/attachments/<suffix of the first occurrence>`. -/
def rewriteAttachments (u : String) : String :=
  match afterSub "attachments/".data u.data with
  | some suffix => "/attachments/" ++ String.mk suffix
  | none => u

/-- The `<figure>` block emitted for one image (template literal of the
source, including its leading newline and indentation). -/
def figureHtml (c fc url altEsc altRaw : String) : String :=
  "\n<figure class=\"image-wrap " ++ fc ++ "\">\n  <img src=\"" ++ url ++
    "\" alt=\"" ++ altEsc ++ "\">\n  <figcaption>\n    <a href=\"#img_forward_link_图" ++
    c ++ "\" id=\"img_backward_link_图" ++ c ++ "\">图" ++ c ++ "</a>：" ++
    altRaw ++ "\n  </figcaption>\n</figure>"

/-- `imgRegex(node)` over a sibling list, threading the image counter.
Each image increments the counter, converts it to a CJK numeral (which
throws past 99), floats right on odd ordinals and left on even ones,
and rewrites the URL. -/
def imgRegexFn : Nat → List MdNode → Except String (Nat × List MdNode)
  | n, [] => Except.ok (n, [])
  | n, .image url alt :: rest => do
      let c ← numberToChineseNat (n + 1)
      let fc := if (n + 1) % 2 != 0 then "float-right" else "float-left"
      let altEsc := if alt ≠ "" then escQuotes alt else ""
      let (nn, out) ← imgRegexFn (n + 1) rest
      Except.ok (nn,
        MdNode.html (figureHtml c fc (rewriteAttachments url) altEsc alt) :: out)
  | n, child :: rest => do
      let (nn, out) ← imgRegexFn n rest
      Except.ok (nn, child :: out)

/-! ## Table Numbering: `tblRegex` -/

/-- The caption block emitted for table ordinal `c` and title. -/
def tblTitleHtml (c title : String) : String :=
  "<p class=\"tbl_title\"><a href=\"#tbl_forward_link_表" ++ c ++
    "\" id=\"tbl_backward_link_表" ++ c ++ "\">表" ++ c ++ "</a>：" ++
    title ++ "</p>"

/-- The loop of `tblRegex`: state `(counter, isInTbl, isFirstRow,
currentTblTitle)`.  On a table row while `isFirstRow`, the first cell's
first child's value becomes the pending title and is blanked (and
`isFirstRow` falls only if the row has a first cell).  On a non-row
while in a table, and at the end of the list while in a table, the
counter is incremented and a caption is emitted.  Note the source never
resets `isFirstRow` (or the pending title) after a caption. -/
def tblGo : Nat → Bool → Bool → String → List MdNode →
    Except String (Nat × List MdNode)
  | n, inT, _, title, [] =>
      if inT then do
        let c ← numberToChineseNat (n + 1)
        Except.ok (n + 1, [MdNode.html (tblTitleHtml c title)])
      else Except.ok (n, [])
  | n, _, firstRow, title, .tableRow rcs :: rest => do
      let (title2, rcs2, firstRow2) :=
        if firstRow then
          match rcs with
          | [] => (title, rcs, firstRow)
          | cell :: cellsRest =>
              match childrenOf cell with
              | some (cc0 :: ccRest) =>
                  ((valueOf cc0).getD "",
                    setChildren cell (setValue "" cc0 :: ccRest) :: cellsRest,
                    false)
              | _ => (title, rcs, false)
        else (title, rcs, firstRow)
      let (nn, out) ← tblGo n true firstRow2 title2 rest
      Except.ok (nn, MdNode.tableRow rcs2 :: out)
  | n, inT, firstRow, title, child :: rest =>
      if inT then do
        let c ← numberToChineseNat (n + 1)
        let (nn, out) ← tblGo (n + 1) false firstRow title rest
        Except.ok (nn, MdNode.html (tblTitleHtml c title) :: child :: out)
      else do
        let (nn, out) ← tblGo n false firstRow title rest
        Except.ok (nn, child :: out)

/-- `tblRegex(node)` with its initial flags. -/
def tblRegexFn (n : Nat) (cs : List MdNode) : Except String (Nat × List MdNode) :=
  tblGo n false true "" cs

/-! ## Pipeline Orchestrator: `markdownReplace` -/

/-- The traversal state of one invocation: the three counters and the
collected footnotes (module-level mutable state in the source, freshly
reset at the start of every run). -/
structure PState where
  imgNum : Nat
  tblNum : Nat
  fnNum : Nat
  collected : List FnEntry
deriving DecidableEq

/-- Counters and footnote store as reset at the start of a run. -/
def initPState : PState := ⟨0, 0, 0, []⟩

/-- The `%20` pre-normalization applied in place to text/html children
(`replace(/%20/g, ' ')`; a falsy empty value is skipped, on which the
rewrite is the identity anyway). -/
def pctDecodeNode : MdNode → MdNode
  | .text v => .text (replPct v)
  | .html v => .html (replPct v)
  | c => c

/-- Does `visit` call the transformer on this node
(`['paragraph', 'table', 'tableCell']`)? -/
def isVisited : MdNode → Bool
  | .paragraph _ => true
  | .table _ => true
  | .tableCell _ => true
  | _ => false

/-- The fixed pass sequence the visitor runs on one node's children,
in exactly the source order. -/
def passChain (st : PState) (cs0 : List MdNode) :
    Except String (PState × List MdNode) := do
  let cs := cs0.map pctDecodeNode
  let cs := transformCustomFootnotes cs
  let cs ← regexFn replLink1 cs
  let cs ← regexFn replLink2 cs
  let cs ← regexFn replLink3 cs
  let cs ← regexFn replLink4 cs
  let (n1, es1, cs) := footnoteRegexFn st.fnNum st.collected cs
  let r ← imgRegexFn st.imgNum cs
  let (i1, cs) := r
  let cs ← regexFn replImgRef cs
  let r ← tblRegexFn st.tblNum cs
  let (t1, cs) := r
  let cs ← regexFn replTblRef cs
  let cs ← regexFn replEm cs
  let cs ← regexFn replSpace1 cs
  let cs ← regexFn replSpace2 cs
  let cs ← regexFn replPunct cs
  let cs ← regexFn replPunct cs
  let cs ← regexFn replPunct cs
  let cs ← regexFn replSpan cs
  let cs ← regexFn replDash cs
  let cs ← regexFn replRightU cs
  let cs ← regexFn replCenterU cs
  let cs ← regexFn replLeftU cs
  let cs ← regexFn replRightL cs
  let cs ← regexFn replCenterL cs
  let cs ← regexFn replLeftL cs
  Except.ok ({ imgNum := i1, tblNum := t1, fnNum := n1, collected := es1 }, cs)

/-- Preorder traversal of `unist-util-visit`: a visited-kind node first
has its children replaced by the pass chain, then the (new) children
are walked left to right.  Fuel is spent once per step (descending to
children or moving to the next sibling), so any fuel beyond the final
node count of the tree suffices; exhaustion is modelled as an error and
never reached at the fuel used by `markdownReplace`. -/
def visitL : Nat → PState → List MdNode → Except String (PState × List MdNode)
  | 0, _, _ => Except.error "visit fuel exhausted"
  | _ + 1, st, [] => Except.ok (st, [])
  | fuel + 1, st, n :: rest => do
      let (st2, n2) ←
        match childrenOf n with
        | none => Except.ok (st, n)
        | some cs => do
            let (st1, cs1) ←
              if isVisited n then passChain st cs else Except.ok (st, cs)
            let (st2, cs2) ← visitL fuel st1 cs1
            Except.ok (st2, setChildren n cs2)
      let (st3, rest2) ← visitL fuel st2 rest
      Except.ok (st3, n2 :: rest2)

/-- Is this a paragraph with nonempty children
(`node.type === 'paragraph' && node.children && node.children.length > 0`)? -/
def isParaWC : MdNode → Bool
  | .paragraph (_ :: _) => true
  | _ => false

/-- Append the pilcrow to a text/html node's value (any other node kind
fails the type test and is left alone). -/
def pilcrowChild : MdNode → MdNode
  | .text v => .text (v ++ "¶")
  | .html v => .html (v ++ "¶")
  | c => c

/-- Apply `f` to the last element of a list. -/
def modifyLast (f : MdNode → MdNode) : List MdNode → List MdNode
  | [] => []
  | [x] => [f x]
  | x :: xs => x :: modifyLast f xs

/-- Append the pilcrow to the last child of a paragraph. -/
def pilcrowPara : MdNode → MdNode
  | .paragraph cs => .paragraph (modifyLast pilcrowChild cs)
  | x => x

/-- The trailing-mark finalization over the root's children: find the
last paragraph that has children, scanning from the end, and mark its
last child. -/
def trailingMark : List MdNode → List MdNode
  | [] => []
  | x :: xs =>
      if xs.any isParaWC then x :: trailingMark xs
      else if isParaWC x then pilcrowPara x :: xs
      else x :: xs

/-- The divider prepended to the footnote section. -/
def hrHtml : String :=
  "<hr style='margin: 1.5em 0 1.5em 0;' class='footnote-separator'>"

/-- One rendering block of the footnote section. -/
def fnBlockHtml (e : FnEntry) : String :=
  "<table class=\"comment\"><tr class=\"comment\"><td class=\"comment\"><a href=\"#" ++
    mkFwdId e.num ++ "\" id=\"" ++ mkBwdId e.num ++ "\">[" ++ natToDec e.num ++
    "]</a></td><td class=\"comment\">" ++ e.content ++ "</td></tr></table>"

/-- Footnote-section emission: if any footnotes were collected, append
the divider and one block per footnote, in collection order, with the
content spliced verbatim. -/
def appendFnSection (es : List FnEntry) (cs : List MdNode) : List MdNode :=
  if es.isEmpty then cs
  else cs ++ MdNode.html hrHtml :: es.map (fun e => MdNode.html (fnBlockHtml e))

/-- The single non-recursive visit step applied to the root itself
(`visit` also tests the root node; the root kind never matches). -/
def visitRoot (fuel : Nat) (st : PState) (n : MdNode) :
    Except String (PState × MdNode) :=
  match childrenOf n with
  | none => Except.ok (st, n)
  | some cs => do
      let (st1, cs1) ←
        if isVisited n then passChain st cs else Except.ok (st, cs)
      let (st2, cs2) ← visitL fuel st1 cs1
      Except.ok (st2, setChildren n cs2)

/-- The full plugin transformer: reset the state, run the traversal,
then append the trailing mark and the footnote section to the root's
children.  The final state (the counters after the run) is returned
alongside the tree. -/
def markdownReplace (tree : MdNode) : Except String (PState × MdNode) := do
  let (st, t) ← visitRoot 1000 initPState tree
  let t2 :=
    match childrenOf t with
    | some cs => setChildren t (appendFnSection st.collected (trailingMark cs))
    | none => t
  Except.ok (st, t2)

/-! ## Observations on finished documents -/

/-- `pat` occurs as a contiguous substring. -/
def containsSub (pat : List Char) : List Char → Bool
  | [] => pat.isEmpty
  | c :: r => (eatL pat (c :: r)).isSome || containsSub pat r

/-- String-level substring test. -/
def hasSubstr (s pat : String) : Bool := containsSub pat.data s.data

/-- Fuel-bounded count of the nodes of a tree list satisfying `p`
(fuel spent once per visited node or sibling step). -/
def countL (p : MdNode → Bool) : Nat → List MdNode → Nat
  | 0, _ => 0
  | _ + 1, [] => 0
  | fuel + 1, n :: rest =>
      (if p n then 1 else 0) +
        (match childrenOf n with
         | some cs => countL p fuel cs
         | none => 0) +
        countL p fuel rest

/-- A table-caption block (as emitted once per table flush). -/
def isTblCaptionNode : MdNode → Bool
  | .html v => hasSubstr v "<p class=\"tbl_title\""
  | _ => false

/-- A figure block (as emitted once per image). -/
def isFigureNode : MdNode → Bool
  | .html v => hasSubstr v "<figure class=\"image-wrap"
  | _ => false

/-- An inline footnote reference link (as emitted once per collected
footnote marker). -/
def isFnRefNode : MdNode → Bool
  | .html v => hasSubstr v "class=\"comment_forward_link\""
  | _ => false

/-- A footnote-section rendering block. -/
def isFnBlockNode : MdNode → Bool
  | .html v => hasSubstr v "<table class=\"comment\""
  | _ => false

/-- Occurrence counts observed in a document: figures, table captions,
inline footnote references, footnote-section blocks. -/
def docCounts (t : MdNode) : Nat × Nat × Nat × Nat :=
  (countL isFigureNode 1000 [t], countL isTblCaptionNode 1000 [t],
    countL isFnRefNode 1000 [t], countL isFnBlockNode 1000 [t])

/-! ## Example documents used by closed theorems -/

/-- A document with one footnote marker, one image and one table. -/
def docFull : MdNode := .root [
  .paragraph [.text "x[^a]y"],
  .paragraph [.image "sub/dir/attachments/pic.png" "P"],
  .table [.tableRow [.tableCell [.text "T"]]]]

/-- A document with a single one-row table. -/
def docTbl : MdNode := .root [.table [.tableRow [.tableCell [.text "T"]]]]

/-- A document whose only image carries a footnote marker inside its
alt text.  The collector runs before the figure pass and skips image
nodes, so the marker survives the first run inside the emitted figure
block — raw markup that the collector of a second run does scan. -/
def docAltMarker : MdNode := .root [.paragraph [.image "u" "see[^x]"]]

/-! ## Specification gadgets used by theorem statements -/

/-- The marker contents captured by a footnote split, in order. -/
def partsContents (parts : List (List Char ⊕ List Char)) : List String :=
  parts.filterMap (fun p => match p with
    | Sum.inl _ => none
    | Sum.inr c => some (String.mk c))

/-- Contents a single child contributes to the collected footnotes. -/
def childContents (c : MdNode) : List String :=
  match valueOf c with
  | some v => partsContents (fnScan v)
  | none => []

/-- Contents an entire sibling list contributes, in visiting order. -/
def listContents (cs : List MdNode) : List String :=
  (cs.map childContents).flatten

/-- Consecutive numbering of contents starting after `n`: the i-th
content (0-based) receives number `n + i + 1`. -/
def numberFrom (n : Nat) : List String → List FnEntry
  | [] => []
  | c :: cs => ⟨n + 1, c⟩ :: numberFrom (n + 1) cs

/-- Footnote-state invariant: the counter equals the number of
collected entries and the i-th entry (0-based) carries number `i+1`. -/
def FnInvariant (n : Nat) (es : List FnEntry) : Prop :=
  n = es.length ∧ ∀ i (h : i < es.length), es[i].num = i + 1

/-- Number of image-kind nodes in a sibling list. -/
def countImages : List MdNode → Nat
  | [] => 0
  | .image _ _ :: rest => countImages rest + 1
  | _ :: rest => countImages rest

/-- Per-node result of the Pattern Rewriter on a candidate-or-other
node, as the claim describes it: a matched value is replaced wholesale
and re-tagged raw-markup; unmatched text stays text, unmatched
raw-markup stays raw-markup; every other kind passes through. -/
def regexSpecNode (f : String → String) : MdNode → MdNode
  | .text v => if f v = v then .text v else .html (f v)
  | .html v => if f v = v then .html v else .html (f v)
  | c => c

/-- Spec-side rendering of the Figure Numbering pass, following the
claim: ordinals continue `1, 2, 3, …` from `n` in visiting order, odd
ordinals float right and even float left, URLs are rewritten, alt text
degrades to the empty string, and non-image nodes pass through. -/
def figureSpecNodes (n : Nat) : List MdNode → List MdNode
  | [] => []
  | .image u a :: rest =>
      .html (figureHtml (chineseCore (n + 1))
          (if (n + 1) % 2 = 1 then "float-right" else "float-left")
          (rewriteAttachments u)
          (if a = "" then "" else escQuotes a) a) ::
        figureSpecNodes (n + 1) rest
  | c :: rest => c :: figureSpecNodes n rest

/-- Is this node a text node? -/
def isTextB : MdNode → Bool
  | .text _ => true
  | _ => false

/-- Is this node a blockquote? -/
def isBlockquoteB : MdNode → Bool
  | .blockquote _ => true
  | _ => false

/-- Is this node a table row? -/
def isTableRowB : MdNode → Bool
  | .tableRow _ => true
  | _ => false

/-- No two adjacent text nodes occur in the list. -/
def adjTextFree : List MdNode → Bool
  | .text _ :: .text _ :: _ => false
  | _ :: rest => adjTextFree rest
  | [] => true


/-- Decidable equality for `Except` results (componentwise). -/
instance exceptDecEq {e a : Type} [DecidableEq e] [DecidableEq a] :
    DecidableEq (Except e a) := fun x y =>
  match x, y with
  | .ok v, .ok w =>
      if h : v = w then .isTrue (congrArg Except.ok h)
      else .isFalse (fun hh => h (Except.ok.inj hh))
  | .error v, .error w =>
      if h : v = w then .isTrue (congrArg Except.error h)
      else .isFalse (fun hh => h (Except.error.inj hh))
  | .ok _, .error _ => .isFalse (fun hh => Except.noConfusion hh)
  | .error _, .ok _ => .isFalse (fun hh => Except.noConfusion hh)

/-! # Theorems -/

theorem strAppend_data (a b : String) : (a ++ b).data = a.data ++ b.data := rfl

/-- C2: For every integer n with 1 ≤ n ≤ 99, the Ordinal Formatter
returns a nonempty CJK numeral string: for n < 10 the single basic
numeral; for n ≥ 10 with tens digit 1 the bare ten numeral with no
leading one; with tens digit ≥ 2 the digit followed by the ten
numeral; a zero ones digit omitted and a nonzero ones digit appended
(1→一, 10→十, 20→二十, 99→九十九); and for any non-integer input or
input outside [1,99] (in particular n=0 and n=100) it fails by
throwing.  The embedding is a pure function, so the absence of side
effects is inherent. -/
theorem claim_C2_ordinal_formatter :
    (∀ n : Nat, n < 100 → 1 ≤ n →
      numberToChineseNat n = Except.ok (chineseCore n) ∧
      chineseCore n ≠ "" ∧
      (n < 10 → chineseCore n = cnDigit n) ∧
      (10 ≤ n → chineseCore n =
        (if n / 10 = 1 then "十" else cnDigit (n / 10) ++ "十") ++
          (if n % 10 = 0 then "" else cnDigit (n % 10)))) ∧
    numberToChineseNat 1 = Except.ok "一" ∧
    numberToChineseNat 10 = Except.ok "十" ∧
    numberToChineseNat 20 = Except.ok "二十" ∧
    numberToChineseNat 99 = Except.ok "九十九" ∧
    (numberToChinese (mkRat 0 1)).isOk = false ∧
    (numberToChinese (mkRat 100 1)).isOk = false ∧
    (numberToChineseNat 0).isOk = false ∧
    (numberToChineseNat 100).isOk = false ∧
    (∀ q : ℚ, ¬ q.den = 1 → (numberToChinese q).isOk = false) ∧
    (∀ q : ℚ, q < 1 → (numberToChinese q).isOk = false) ∧
    (∀ q : ℚ, 99 < q → (numberToChinese q).isOk = false) := by
  refine ⟨?_, rfl, rfl, rfl, rfl, by decide, by decide, by decide, by decide,
    ?_, ?_, ?_⟩
  · decide
  · intro q h
    unfold numberToChinese
    rw [if_pos (Or.inl h)]
    rfl
  · intro q h
    unfold numberToChinese
    rw [if_pos (Or.inr (Or.inl h))]
    rfl
  · intro q h
    unfold numberToChinese
    rw [if_pos (Or.inr (Or.inr h))]
    rfl

theorem claim_C2_witness :
    numberToChineseNat 42 = Except.ok (chineseCore 42) ∧ chineseCore 42 ≠ "" :=
  ⟨(claim_C2_ordinal_formatter.1 42 (by decide) (by decide)).1,
    (claim_C2_ordinal_formatter.1 42 (by decide) (by decide)).2.1⟩

theorem modifyLast_concat (f : MdNode → MdNode) (cs : List MdNode) (c : MdNode) :
    modifyLast f (cs ++ [c]) = cs ++ [f c] := by
  induction cs with
  | nil => rfl
  | cons x xs ih =>
      cases xs with
      | nil => rfl
      | cons y ys => simpa [modifyLast] using ih

theorem trailingMark_no_para (cs : List MdNode)
    (h : ∀ c ∈ cs, isParaWC c = false) : trailingMark cs = cs := by
  induction cs with
  | nil => rfl
  | cons x xs ih =>
      have hx := h x (List.mem_cons_self x xs)
      have hxs : xs.any isParaWC = false := by
        rw [List.any_eq_false]
        intro c hc
        simp [h c (List.mem_cons_of_mem x hc)]
      simp [trailingMark, hxs, hx]

theorem trailingMark_marks_last (pre : List MdNode) (p : MdNode)
    (post : List MdNode) (hp : isParaWC p = true)
    (hpost : ∀ c ∈ post, isParaWC c = false) :
    trailingMark (pre ++ p :: post) = pre ++ pilcrowPara p :: post := by
  induction pre with
  | nil =>
      have hpost2 : post.any isParaWC = false := by
        rw [List.any_eq_false]
        intro c hc
        simp [hpost c hc]
      simp [trailingMark, hpost2, hp]
  | cons x xs ih =>
      have hany : (xs ++ p :: post).any isParaWC = true := by
        rw [List.any_eq_true]
        exact ⟨p, by simp, hp⟩
      simp [trailingMark, hany, ih]

theorem pilcrowChild_no_value (c : MdNode) (h : valueOf c = none) :
    pilcrowChild c = c := by
  cases c <;> simp_all [valueOf, pilcrowChild]

/-- C10: The trailing-mark finalization step inspects only the direct
children of the document root and mutates at most one node: the last
child of the last top-level paragraph that has children, and only when
that child is a text or raw-markup node, in which case the pilcrow is
appended to its value; every other node — the siblings before and
after the marked paragraph, the paragraph's other children, and in
particular any paragraph nested deeper — is returned unchanged. -/
theorem claim_C10_trailing_mark_frame :
    (∀ cs, (∀ c ∈ cs, isParaWC c = false) → trailingMark cs = cs) ∧
    (∀ pre p post, isParaWC p = true → (∀ c ∈ post, isParaWC c = false) →
      trailingMark (pre ++ p :: post) = pre ++ pilcrowPara p :: post) ∧
    (∀ cs c, pilcrowPara (.paragraph (cs ++ [c])) =
      .paragraph (cs ++ [pilcrowChild c])) ∧
    (∀ v, pilcrowChild (.text v) = .text (v ++ "¶")) ∧
    (∀ v, pilcrowChild (.html v) = .html (v ++ "¶")) ∧
    (∀ c, valueOf c = none → pilcrowChild c = c) := by
  refine ⟨trailingMark_no_para, trailingMark_marks_last, ?_,
    fun _ => rfl, fun _ => rfl, pilcrowChild_no_value⟩
  intro cs c
  simp [pilcrowPara, modifyLast_concat]

theorem claim_C10_witness :
    trailingMark [.other, .paragraph [.html "q", .text "v"], .html "h"] =
      [.other, .paragraph [.html "q", .text "v¶"], .html "h"] := by
  have h := claim_C10_trailing_mark_frame.2.1 [.other]
    (.paragraph [.html "q", .text "v"]) [.html "h"] rfl
    (by intro c hc; simp at hc; subst hc; rfl)
  simpa [pilcrowPara, modifyLast, pilcrowChild] using h

theorem regexFn_no_blockquote (f : String → String) :
    ∀ cs : List MdNode, (∀ c ∈ cs, isBlockquoteB c = false) →
      regexFn f cs = Except.ok (cs.map (regexSpecNode f)) := by
  intro cs
  induction cs with
  | nil => intro _; rfl
  | cons c rest ih =>
      intro h
      have hc := h c (List.mem_cons_self c rest)
      have ih2 := ih (fun x hx => h x (List.mem_cons_of_mem c hx))
      cases c <;>
        simp_all [regexFn, regexSpecNode, isBlockquoteB, Except.bind, Bind.bind]

/-- C4: counterexample — a quote-block node is a candidate but carries
no string value, so the Pattern Rewriter throws on it instead of
reading it and leaving it structurally unaltered, contradicting the
claim's quote-block clause. -/
theorem claim_C4_counterexample :
    regexFn replEm [.text "t", .blockquote []] =
      Except.error "TypeError: cannot read value of a blockquote" := rfl

/-- C4 (amended): For every sibling list containing no quote-block
node and every (pattern, template) pair, the Pattern Rewriter returns
a new sibling list of exactly equal length in which only text and
raw-markup nodes are candidates (all other kinds pass through
unchanged): a candidate whose whole value matches is replaced by the
substituted string and re-tagged raw-markup; if the pattern produces
no change, text stays text and raw-markup stays raw-markup.
Quote-block nodes are also examined as candidates, but having no
string value they make the rewriter throw. -/
theorem claim_C4_pattern_rewriter :
    (∀ (f : String → String) cs, (∀ c ∈ cs, isBlockquoteB c = false) →
      regexFn f cs = Except.ok (cs.map (regexSpecNode f)) ∧
      (cs.map (regexSpecNode f)).length = cs.length) ∧
    (∀ (f : String → String) v, f v ≠ v →
      regexSpecNode f (.text v) = .html (f v) ∧
      regexSpecNode f (.html v) = .html (f v)) ∧
    (∀ (f : String → String) v, f v = v →
      regexSpecNode f (.text v) = .text v ∧
      regexSpecNode f (.html v) = .html v) ∧
    (∀ (f : String → String) c, valueOf c = none →
      regexSpecNode f c = c) := by
  refine ⟨fun f cs h => ⟨regexFn_no_blockquote f cs h, by simp⟩, ?_, ?_, ?_⟩
  · intro f v h
    constructor <;> simp [regexSpecNode, h]
  · intro f v h
    constructor <;> simp [regexSpecNode, h]
  · intro f c h
    cases c <;> simp_all [valueOf, regexSpecNode]

theorem claim_C4_witness :
    regexFn replEm [.text "a「b」c", .other, .html "plain"] =
      Except.ok [.html "a「<em>b</em>」c", .other, .html "plain"] := by
  have h := (claim_C4_pattern_rewriter.1 replEm
    [.text "a「b」c", .other, .html "plain"]
    (by intro c hc; fin_cases hc <;> rfl)).1
  simpa using h.trans (by rfl)

/-- C8: When an image node has no resolvable alt text, or a table
row's first cell is empty (no children, or a first child with no
usable value), the numbering passes degrade to the empty string — for
the figure's alt attribute and caption text, and for the table caption
title — and succeed rather than failing. -/
theorem claim_C8_graceful_degradation :
    (∀ n url, n + 1 ≤ 99 →
      imgRegexFn n [.image url ""] =
        Except.ok (n + 1, [.html (figureHtml (chineseCore (n + 1))
          (if (n + 1) % 2 != 0 then "float-right" else "float-left")
          (rewriteAttachments url) "" "")])) ∧
    imgRegexFn 0 [.image "u" ""] =
      Except.ok (1, [.html (figureHtml "一" "float-right" "u" "" "")]) ∧
    (∀ n, n + 1 ≤ 99 →
      tblRegexFn n [.tableRow [.tableCell []]] =
        Except.ok (n + 1, [.tableRow [.tableCell []],
          .html (tblTitleHtml (chineseCore (n + 1)) "")])) ∧
    tblRegexFn 0 [.tableRow [.tableCell []]] =
      Except.ok (1, [.tableRow [.tableCell []], .html (tblTitleHtml "一" "")]) ∧
    tblRegexFn 0 [.tableRow [.tableCell [.other]]] =
      Except.ok (1, [.tableRow [.tableCell [.other]],
        .html (tblTitleHtml "一" "")]) := by
  refine ⟨?_, rfl, ?_, rfl, rfl⟩
  · intro n url hn
    have h1 : ¬ n + 1 < 1 := by omega
    have h2 : ¬ 99 < n + 1 := by omega
    simp [imgRegexFn, numberToChineseNat, h1, h2, Except.bind, Bind.bind]
  · intro n hn
    have h1 : ¬ n + 1 < 1 := by omega
    have h2 : ¬ 99 < n + 1 := by omega
    simp [tblRegexFn, tblGo, numberToChineseNat, h1, h2, childrenOf,
      Except.bind, Bind.bind]

theorem claim_C8_witness :
    imgRegexFn 7 [.image "pics/attachments/a.png" ""] =
      Except.ok (8, [.html (figureHtml (chineseCore 8) "float-left"
        "/attachments/a.png" "" "")]) := by
  have h := claim_C8_graceful_degradation.1 7 "pics/attachments/a.png"
    (by decide)
  simpa using h.trans (by rfl)

theorem digitCh_toNat (n : Nat) (h : n < 10) : (digitCh n).toNat = 48 + n := by
  interval_cases n <;> rfl

theorem decOfChars_append_digit (l : List Char) (c : Char) :
    decOfChars (l ++ [c]) = decOfChars l * 10 + (c.toNat - 48) := by
  simp [decOfChars, List.foldl_append]

theorem decOf_natToDecL : ∀ f n, n < 10 ^ f → decOfChars (natToDecL f n) = n := by
  intro f
  induction f with
  | zero =>
      intro n h
      interval_cases n
      rfl
  | succ f ih =>
      intro n h
      by_cases h10 : n < 10
      · have hd := digitCh_toNat n h10
        simp [natToDecL, h10, decOfChars]
        omega
      · have hdiv : n / 10 < 10 ^ f := by
          rw [Nat.div_lt_iff_lt_mul (by norm_num)]
          calc n < 10 ^ (f + 1) := h
            _ = 10 ^ f * 10 := by ring
        have hm := digitCh_toNat (n % 10) (Nat.mod_lt _ (by norm_num))
        simp [natToDecL, h10, decOfChars_append_digit, ih _ hdiv, hm]
        omega

theorem decOf_natToDec (n : Nat) : decOfChars (natToDec n).data = n := by
  have h1 : n < 10 ^ n := Nat.lt_pow_self (by norm_num) n
  have h2 : (10 : Nat) ^ n ≤ 10 ^ (n + 1) :=
    Nat.pow_le_pow_right (by norm_num) (Nat.le_succ n)
  exact decOf_natToDecL (n + 1) n (lt_of_lt_of_le h1 h2)

theorem natToDec_inj {m n : Nat} (h : natToDec m = natToDec n) : m = n := by
  have h2 := congrArg (fun s => decOfChars s.data) h
  simpa [decOf_natToDec] using h2

theorem mkFwdId_inj {m n : Nat} (h : mkFwdId m = mkFwdId n) : m = n := by
  apply natToDec_inj
  have hd := congrArg String.data h
  simp only [mkFwdId, strAppend_data] at hd
  have hd2 := List.append_cancel_left hd
  have : String.mk (natToDec m).data = String.mk (natToDec n).data := by rw [hd2]
  simpa using this

theorem mkBwdId_inj {m n : Nat} (h : mkBwdId m = mkBwdId n) : m = n := by
  apply natToDec_inj
  have hd := congrArg String.data h
  simp only [mkBwdId, strAppend_data] at hd
  have hd2 := List.append_cancel_left hd
  have : String.mk (natToDec m).data = String.mk (natToDec n).data := by rw [hd2]
  simpa using this

theorem mkFwdId_ne_mkBwdId (m n : Nat) : mkFwdId m ≠ mkBwdId n := by
  intro h
  have hd := congrArg (fun s => s.data[8]?) h
  simp only [mkFwdId, mkBwdId, strAppend_data] at hd
  rw [List.getElem?_append, List.getElem?_append] at hd
  simp at hd

theorem eatL_append (p l : List Char) : eatL p (p ++ l) = some l := by
  induction p with
  | nil => rfl
  | cons c cs ih => simp [eatL, ih]

theorem containsSub_mid : ∀ a p b : List Char, containsSub p (a ++ p ++ b) = true := by
  intro a p b
  induction a with
  | nil =>
      cases p with
      | nil =>
          cases b with
          | nil => rfl
          | cons x xs => simp [containsSub, eatL]
      | cons x xs =>
          have h1 := eatL_append (x :: xs) b
          rw [List.cons_append] at h1
          simp [containsSub, h1]
  | cons y ys ih =>
      have ih2 : containsSub p (ys ++ (p ++ b)) = true := by
        simpa [List.append_assoc] using ih
      simp [List.cons_append, containsSub, ih2]

theorem numberFrom_length : ∀ (l : List String) (n : Nat),
    (numberFrom n l).length = l.length := by
  intro l
  induction l with
  | nil => intro n; rfl
  | cons c cs ih => intro n; simp [numberFrom, ih]

theorem numberFrom_append : ∀ (l1 l2 : List String) (n : Nat),
    numberFrom n (l1 ++ l2) = numberFrom n l1 ++ numberFrom (n + l1.length) l2 := by
  intro l1
  induction l1 with
  | nil => intro l2 n; simp [numberFrom]
  | cons c cs ih =>
      intro l2 n
      simp [numberFrom, ih, Nat.add_assoc, Nat.add_comm 1 cs.length]

theorem numberFrom_get : ∀ (l : List String) (n i : Nat)
    (h : i < (numberFrom n l).length), ((numberFrom n l)[i]).num = n + 1 + i := by
  intro l
  induction l with
  | nil => intro n i h; simp [numberFrom] at h
  | cons c cs ih =>
      intro n i h
      cases i with
      | zero => rfl
      | succ j =>
          have h2 : j < (numberFrom (n + 1) cs).length := by
            simpa [numberFrom] using h
          have h3 := ih (n + 1) j h2
          have h4 : ((numberFrom n (c :: cs))[j + 1]).num =
              ((numberFrom (n + 1) cs)[j]).num := rfl
          rw [h4, h3]
          omega
          
theorem partsContents_nil_of_no_marker :
    ∀ parts, hasFnMarker parts = false → partsContents parts = [] := by
  intro parts h
  induction parts with
  | nil => rfl
  | cons p rest ih =>
      cases p with
      | inl a =>
          have hrest : hasFnMarker rest = false := by
            simp only [hasFnMarker, List.any_cons] at h ⊢
            simpa using h
          have h2 := ih hrest
          simpa [partsContents] using h2
      | inr c => simp [hasFnMarker, Sum.isRight] at h

theorem fnParts_spec : ∀ parts n, ∃ ns, fnParts n parts =
    (n + (partsContents parts).length, numberFrom n (partsContents parts), ns) := by
  intro parts
  induction parts with
  | nil => intro n; exact ⟨[], rfl⟩
  | cons p rest ih =>
      intro n
      cases p with
      | inl a =>
          obtain ⟨ns, hns⟩ := ih n
          refine ⟨if a.isEmpty then ns else MdNode.text (String.mk a) :: ns, ?_⟩
          simp [fnParts, hns, partsContents]
      | inr c =>
          obtain ⟨ns, hns⟩ := ih (n + 1)
          refine ⟨MdNode.html (fnRefHtml (n + 1)) :: ns, ?_⟩
          simp [fnParts, hns, partsContents, numberFrom, Nat.add_assoc,
            Nat.add_comm 1 (partsContents rest).length]
          omega

theorem listContents_cons (c : MdNode) (cs : List MdNode) :
    listContents (c :: cs) = childContents c ++ listContents cs := by
  simp [listContents]

theorem footnoteRegexFn_spec : ∀ (cs : List MdNode) (n : Nat) (es : List FnEntry),
    ∃ ns, footnoteRegexFn n es cs =
      (n + (listContents cs).length, es ++ numberFrom n (listContents cs), ns) := by
  intro cs
  induction cs with
  | nil => intro n es; exact ⟨[], by simp [footnoteRegexFn, listContents, numberFrom]⟩
  | cons child rest ih =>
      intro n es
      rcases hval : valueOf child with _ | v
      · obtain ⟨ns, hns⟩ := ih n es
        refine ⟨child :: ns, ?_⟩
        have hcc : childContents child = [] := by simp [childContents, hval]
        simp [footnoteRegexFn, hval, hns, listContents_cons, hcc]
      · by_cases hm : hasFnMarker (fnScan v) = true
        · obtain ⟨ns1, h1⟩ := fnParts_spec (fnScan v) n
          have hcc : childContents child = partsContents (fnScan v) := by
            simp [childContents, hval]
          obtain ⟨ns2, h2⟩ := ih (n + (partsContents (fnScan v)).length)
            (es ++ numberFrom n (partsContents (fnScan v)))
          refine ⟨ns1 ++ ns2, ?_⟩
          simp [footnoteRegexFn, hval, hm, h1, h2, listContents_cons, hcc,
            numberFrom_append, Nat.add_assoc, List.append_assoc]
        · have hmf : hasFnMarker (fnScan v) = false := by
            simpa using hm
          have hpc := partsContents_nil_of_no_marker (fnScan v) hmf
          have hcc : childContents child = [] := by
            simp [childContents, hval, hpc]
          obtain ⟨ns, hns⟩ := ih n es
          refine ⟨child :: ns, ?_⟩
          simp [footnoteRegexFn, hval, hmf, hns, listContents_cons, hcc]

theorem appendFnSection_length (es : List FnEntry) (cs : List MdNode)
    (hne : ¬ es = []) :
    (appendFnSection es cs).length = cs.length + 1 + es.length := by
  have hne2 : es.isEmpty = false := by
    cases es with
    | nil => exact absurd rfl hne
    | cons a l => rfl
  simp [appendFnSection, hne2]
  omega

theorem appendFnSection_get (es : List FnEntry) (cs : List MdNode)
    (hne : ¬ es = []) (i : Nat) (h : i < es.length) :
    (appendFnSection es cs)[cs.length + 1 + i]? =
      some (.html (fnBlockHtml es[i])) := by
  have hne2 : es.isEmpty = false := by
    cases es with
    | nil => exact absurd rfl hne
    | cons a l => rfl
  simp only [appendFnSection, hne2, Bool.false_eq_true, if_false]
  rw [List.getElem?_append_right (by omega)]
  have hidx : cs.length + 1 + i - cs.length = i + 1 := by omega
  rw [hidx, List.getElem?_cons_succ, List.getElem?_map,
    List.getElem?_eq_getElem h]
  rfl

theorem fnBlockHtml_contains_content (e : FnEntry) :
    hasSubstr (fnBlockHtml e) e.content = true := by
  have h := containsSub_mid
    (("<table class=\"comment\"><tr class=\"comment\"><td class=\"comment\"><a href=\"#" ++
      mkFwdId e.num ++ "\" id=\"" ++ mkBwdId e.num ++ "\">[" ++ natToDec e.num ++
      "]</a></td><td class=\"comment\">").data)
    e.content.data
    ("</td></tr></table>".data)
  simp only [hasSubstr, fnBlockHtml, strAppend_data, List.append_assoc] at h ⊢
  exact h

theorem fnBlockHtml_contains_label (e : FnEntry) :
    hasSubstr (fnBlockHtml e) ("[" ++ natToDec e.num ++ "]") = true := by
  have h := containsSub_mid
    (("<table class=\"comment\"><tr class=\"comment\"><td class=\"comment\"><a href=\"#" ++
      mkFwdId e.num ++ "\" id=\"" ++ mkBwdId e.num ++ "\">").data)
    (("[" ++ natToDec e.num ++ "]").data)
    (("</a></td><td class=\"comment\">" ++ e.content ++ "</td></tr></table>").data)
  simp only [hasSubstr, fnBlockHtml, strAppend_data, List.append_assoc] at h ⊢
  simpa [List.append_assoc, List.cons_append, List.singleton_append] using h

/-- C1: For every document traversal, the Footnote Collector assigns
footnote numbers strictly in the order the `[^content]` markers are
encountered (consecutively, continuing from the current counter),
excluding contents beginning with the reserved `图`/`表` prefixes; a
paragraph containing `[^a]` then `[^b]` yields number 1 for `a` and 2
for `b`; and the footnote section appended after the traversal
contains exactly one rendering block per collected footnote, at the
positions following the divider, in collection order, with the
footnote content embedded verbatim in the block. -/
theorem claim_C1_footnote_collector :
    (∀ n es cs, ∃ ns, footnoteRegexFn n es cs =
      (n + (listContents cs).length, es ++ numberFrom n (listContents cs), ns)) ∧
    footnoteRegexFn 0 [] [.text "x[^a]y[^b]z"] =
      (2, [⟨1, "a"⟩, ⟨2, "b"⟩],
        [.text "x", .html (fnRefHtml 1), .text "y", .html (fnRefHtml 2),
          .text "z"]) ∧
    footnoteRegexFn 0 [] [.text "u[^图1]v[^表2]w"] =
      (0, [], [.text "u[^图1]v[^表2]w"]) ∧
    (∀ es cs, ¬ es = [] →
      (appendFnSection es cs).length = cs.length + 1 + es.length ∧
      ∀ i (h : i < es.length),
        (appendFnSection es cs)[cs.length + 1 + i]? =
          some (.html (fnBlockHtml es[i]))) ∧
    (∀ e : FnEntry, hasSubstr (fnBlockHtml e) e.content = true) ∧
    (∀ cs, appendFnSection [] cs = cs) := by
  refine ⟨fun n es cs => footnoteRegexFn_spec cs n es, rfl, rfl, ?_,
    fnBlockHtml_contains_content, fun cs => rfl⟩
  intro es cs hne
  exact ⟨appendFnSection_length es cs hne,
    fun i h => appendFnSection_get es cs hne i h⟩

theorem claim_C1_witness :
    (appendFnSection [⟨1, "a"⟩, ⟨2, "b"⟩] [.other]).length = 4 ∧
    (appendFnSection [⟨1, "a"⟩, ⟨2, "b"⟩] [.other])[3]? =
      some (.html (fnBlockHtml ⟨2, "b"⟩)) := by
  have h := claim_C1_footnote_collector.2.2.2.1 [⟨1, "a"⟩, ⟨2, "b"⟩] [.other]
    (by simp)
  exact ⟨h.1, by simpa using h.2 1 (by decide)⟩

/-- C9: Throughout any single traversal the collected footnote
sequence is append-only with consecutive numbers starting at 1 (the
i-th collected entry, 1-based, carries number i, preserved by every
collector step), the forward/backward anchor ids
`comment_forward_link_N` / `comment_backward_link_N` are pairwise
distinct across distinct numbers and across the two families, and the
k-th block of the trailing footnote section carries the label `[k]`. -/
theorem claim_C9_footnote_numbering_invariant :
    (∀ n es cs, FnInvariant n es →
      FnInvariant (footnoteRegexFn n es cs).1 (footnoteRegexFn n es cs).2.1) ∧
    (∀ n es cs, ∃ ns, footnoteRegexFn n es cs =
      (n + (numberFrom n (listContents cs)).length,
        es ++ numberFrom n (listContents cs), ns)) ∧
    (∀ m k : Nat, m ≠ k → mkFwdId m ≠ mkFwdId k) ∧
    (∀ m k : Nat, m ≠ k → mkBwdId m ≠ mkBwdId k) ∧
    (∀ m k : Nat, mkFwdId m ≠ mkBwdId k) ∧
    (∀ e : FnEntry, hasSubstr (fnBlockHtml e) ("[" ++ natToDec e.num ++ "]") = true) ∧
    (∀ es cs i (h : i < es.length), ¬ es = [] → FnInvariant es.length es →
      (appendFnSection es cs)[cs.length + 1 + i]? =
        some (.html (fnBlockHtml es[i])) ∧ es[i].num = i + 1) := by
  refine ⟨?_, ?_, fun m k hmk h => hmk (mkFwdId_inj h),
    fun m k hmk h => hmk (mkBwdId_inj h), mkFwdId_ne_mkBwdId,
    fnBlockHtml_contains_label, ?_⟩
  · rintro n es cs ⟨hlen, hnum⟩
    obtain ⟨ns, hns⟩ := footnoteRegexFn_spec cs n es
    rw [hns]
    dsimp only
    refine ⟨by simp [numberFrom_length, hlen], ?_⟩
    intro i h
    simp only [List.length_append, numberFrom_length] at h
    by_cases hi : i < es.length
    · rw [List.getElem_append_left hi]
      exact hnum i hi
    · have hle : es.length ≤ i := Nat.le_of_not_lt hi
      rw [List.getElem_append_right hle]
      have hb : i - es.length < (numberFrom n (listContents cs)).length := by
        simp [numberFrom_length]
        omega
      rw [numberFrom_get (listContents cs) n (i - es.length) hb]
      omega
  · intro n es cs
    obtain ⟨ns, hns⟩ := footnoteRegexFn_spec cs n es
    exact ⟨ns, by rw [hns, numberFrom_length]⟩
  · intro es cs i h hne hinv
    exact ⟨appendFnSection_get es cs hne i h, hinv.2 i h⟩

theorem claim_C9_witness :
    FnInvariant (footnoteRegexFn 0 [] [.text "p[^a]q"]).1
      (footnoteRegexFn 0 [] [.text "p[^a]q"]).2.1 ∧
    mkFwdId 1 ≠ mkFwdId 2 := by
  constructor
  · exact claim_C9_footnote_numbering_invariant.1 0 [] [.text "p[^a]q"]
      ⟨rfl, fun i h => absurd h (Nat.not_lt_zero i)⟩
  · exact claim_C9_footnote_numbering_invariant.2.2.1 1 2 (by decide)

theorem imgRegexFn_spec : ∀ (cs : List MdNode) (n : Nat),
    n + countImages cs ≤ 99 →
    imgRegexFn n cs = Except.ok (n + countImages cs, figureSpecNodes n cs) := by
  intro cs
  induction cs with
  | nil => intro n h; simp [imgRegexFn, countImages, figureSpecNodes]
  | cons c rest ih =>
      intro n h
      cases c with
      | image u a =>
          have hc : countImages (MdNode.image u a :: rest) =
              countImages rest + 1 := rfl
          rw [hc] at h
          have hb : n + 1 + countImages rest ≤ 99 := by omega
          have h1 : ¬ n + 1 < 1 := by omega
          have h2 : ¬ 99 < n + 1 := by omega
          have hcount : n + (countImages rest + 1) = n + 1 + countImages rest := by
            omega
          rcases Nat.mod_two_eq_zero_or_one (n + 1) with hp | hp <;>
            by_cases ha : a = "" <;>
              simp [imgRegexFn, numberToChineseNat, h1, h2, ih (n + 1) hb,
                figureSpecNodes, hc, hcount, hp, ha, Except.bind, Bind.bind,
                bne] <;> (simp [countImages]; omega)
      | text v =>
          simp [imgRegexFn, countImages, figureSpecNodes,
            ih n (by simpa [countImages] using h), Except.bind, Bind.bind]
      | html v =>
          simp [imgRegexFn, countImages, figureSpecNodes,
            ih n (by simpa [countImages] using h), Except.bind, Bind.bind]
      | link cs2 =>
          simp [imgRegexFn, countImages, figureSpecNodes,
            ih n (by simpa [countImages] using h), Except.bind, Bind.bind]
      | tableRow cs2 =>
          simp [imgRegexFn, countImages, figureSpecNodes,
            ih n (by simpa [countImages] using h), Except.bind, Bind.bind]
      | tableCell cs2 =>
          simp [imgRegexFn, countImages, figureSpecNodes,
            ih n (by simpa [countImages] using h), Except.bind, Bind.bind]
      | paragraph cs2 =>
          simp [imgRegexFn, countImages, figureSpecNodes,
            ih n (by simpa [countImages] using h), Except.bind, Bind.bind]
      | table cs2 =>
          simp [imgRegexFn, countImages, figureSpecNodes,
            ih n (by simpa [countImages] using h), Except.bind, Bind.bind]
      | blockquote cs2 =>
          simp [imgRegexFn, countImages, figureSpecNodes,
            ih n (by simpa [countImages] using h), Except.bind, Bind.bind]
      | root cs2 =>
          simp [imgRegexFn, countImages, figureSpecNodes,
            ih n (by simpa [countImages] using h), Except.bind, Bind.bind]
      | other =>
          simp [imgRegexFn, countImages, figureSpecNodes,
            ih n (by simpa [countImages] using h), Except.bind, Bind.bind]

theorem afterSub_none_of_not_contains (pat : List Char) :
    ∀ l : List Char, containsSub pat l = false → afterSub pat l = none := by
  intro l
  induction l with
  | nil => intro _; rfl
  | cons c r ih =>
      intro h
      simp only [containsSub, Bool.or_eq_false_iff] at h
      cases heat : eatL pat (c :: r) with
      | some s => rw [heat] at h; simp at h
      | none => simp [afterSub, heat, ih h.2]

theorem rewriteAttachments_id (u : String)
    (h : hasSubstr u "attachments/" = false) : rewriteAttachments u = u := by
  have h2 := afterSub_none_of_not_contains ("attachments/".data) u.data
    (by simpa [hasSubstr] using h)
  simp [rewriteAttachments, h2]

/-- C6: For every traversal, the Figure Numbering pass assigns image
ordinals 1, 2, 3, … in visiting order (continuing from the current
counter), gives each emitted figure block the float-right class when
its ordinal is odd and float-left when even, rewrites any image URL
containing the literal segment `attachments/` to
`/attachments/<suffix>`, leaves URLs without that segment untouched,
and passes non-image nodes through unchanged — provided the final
ordinal stays within the numeral formatter's domain (past 99 the
formatter throws). -/
theorem claim_C6_figure_numbering :
    (∀ cs n, n + countImages cs ≤ 99 →
      imgRegexFn n cs = Except.ok (n + countImages cs, figureSpecNodes n cs)) ∧
    (∀ u, hasSubstr u "attachments/" = false → rewriteAttachments u = u) ∧
    rewriteAttachments "sub/dir/attachments/pic.png" = "/attachments/pic.png" ∧
    imgRegexFn 0 [.image "a" "x", .other, .image "b" "y", .image "c" "z"] =
      Except.ok (3, [.html (figureHtml "一" "float-right" "a" "x" "x"), .other,
        .html (figureHtml "二" "float-left" "b" "y" "y"),
        .html (figureHtml "三" "float-right" "c" "z" "z")]) :=
  ⟨imgRegexFn_spec, rewriteAttachments_id, rfl, rfl⟩

theorem claim_C6_witness :
    imgRegexFn 0 [.image "sub/dir/attachments/pic.png" "P"] =
      Except.ok (1, figureSpecNodes 0 [.image "sub/dir/attachments/pic.png" "P"]) :=
  claim_C6_figure_numbering.1 [.image "sub/dir/attachments/pic.png" "P"] 0
    (by decide)

theorem tcfMatch_eq_some {h r : MdNode} {rs : List MdNode}
    {v1 : String} {lcs : List MdNode} {v3 : String} {rest3 : List MdNode}
    (he : tcfMatch h r rs = some (v1, lcs, v3, rest3)) :
    h = .text v1 ∧ r = .link lcs ∧ rs = .text v3 :: rest3 ∧
    endsWithCaretOpen v1 = true ∧ lcs ≠ [] ∧
    startsWithCloseBracket v3 = true := by
  cases h
  case text w =>
    cases r
    case link lcs2 =>
      cases rs
      case cons rr rss =>
        cases rr
        case text v3b =>
          simp only [tcfMatch] at he
          by_cases h1 : endsWithCaretOpen w = true <;>
            by_cases h2 : lcs2.isEmpty = true <;>
              by_cases h3 : startsWithCloseBracket v3b = true <;>
                simp [h1, h2, h3] at he
          obtain ⟨hv1, hl, hv3, hr3⟩ := he
          subst hv1; subst hl; subst hv3; subst hr3
          refine ⟨rfl, rfl, rfl, h1, ?_, h3⟩
          intro hnil
          exact h2 (by simp [hnil])
        all_goals simp [tcfMatch] at he
      all_goals simp [tcfMatch] at he
    all_goals simp [tcfMatch] at he
  all_goals simp [tcfMatch] at he

theorem tcfGoF_fuel : ∀ f g (h : MdNode) (rest : List MdNode),
    rest.length < f → rest.length < g → tcfGoF f h rest = tcfGoF g h rest := by
  intro f
  induction f using Nat.strong_induction_on with
  | _ f ihf =>
      intro g h rest hf hg
      cases f with
      | zero => omega
      | succ f =>
          cases g with
          | zero => omega
          | succ g =>
              simp only [tcfGoF]
              cases rest with
              | nil => rfl
              | cons r rs =>
                  dsimp only
                  cases hm : tcfMatch h r rs with
                  | none =>
                      dsimp only
                      have hlf : rs.length < f := by
                        simp only [List.length_cons] at hf; omega
                      have hlg : rs.length < g := by
                        simp only [List.length_cons] at hg; omega
                      rw [ihf f (Nat.lt_succ_self f) g r rs hlf hlg]
                  | some q =>
                      obtain ⟨v1, lcs, v3, rest3⟩ := q
                      obtain ⟨hh, hr, hrs, _, _, _⟩ := tcfMatch_eq_some hm
                      subst hrs
                      dsimp only
                      simp only [List.length_cons] at hf hg
                      by_cases hrem : v3.drop 1 = ""
                      · rw [if_pos hrem, if_pos hrem]
                        cases rest3 with
                        | nil => rfl
                        | cons r2 rs2 =>
                            try dsimp only
                            simp only [List.length_cons] at hf hg
                            exact congrArg _ (ihf f (Nat.lt_succ_self f) g
                              r2 rs2 (by omega) (by omega))
                      · rw [if_neg hrem, if_neg hrem]
                        try dsimp only
                        exact congrArg _ (ihf f (Nat.lt_succ_self f) g
                          (.text (v3.drop 1)) rest3 (by omega) (by omega))

theorem tcfGoA_step (v1 : String) (c0 : MdNode) (ls : List MdNode)
    (v3 : String) (rest3 : List MdNode)
    (h1 : endsWithCaretOpen v1 = true)
    (h3 : startsWithCloseBracket v3 = true) :
    tcfGoA (.text v1) (.link (c0 :: ls) :: .text v3 :: rest3) =
      .text (v1.dropRight 2 ++ "[^" ++ (valueOf c0).getD "" ++ "]") ::
        (if v3.drop 1 = "" then
          (match rest3 with
           | [] => []
           | r2 :: rs2 => tcfGoA r2 rs2)
         else tcfGoA (.text (v3.drop 1)) rest3) := by
  have hm : tcfMatch (.text v1) (.link (c0 :: ls)) (.text v3 :: rest3) =
      some (v1, c0 :: ls, v3, rest3) := by
    simp [tcfMatch, h1, h3]
  unfold tcfGoA
  rw [tcfGoF]
  try dsimp only
  rw [hm]
  try dsimp only
  by_cases hrem : v3.drop 1 = ""
  · rw [if_pos hrem, if_pos hrem]
    cases rest3 with
    | nil => rfl
    | cons r2 rs2 =>
        try dsimp only
        refine congrArg _ (tcfGoF_fuel _ _ r2 rs2 ?_ ?_) <;>
          (try simp only [List.length_cons]) <;> omega
  · rw [if_neg hrem, if_neg hrem]
    try dsimp only
    refine congrArg _ (tcfGoF_fuel _ _ (.text (v3.drop 1)) rest3 ?_ ?_) <;>
      (try simp only [List.length_cons]) <;> omega

theorem isTextB_iff (x : MdNode) : isTextB x = true ↔ ∃ v, x = .text v := by
  cases x <;> simp [isTextB]

theorem mergeA_cons_both (a b : String) (cs : List MdNode) :
    mergeA (.text a) (.text b :: cs) = mergeA (.text (a ++ b)) cs := rfl

theorem mergeA_cons_of_not_both (h c : MdNode) (cs : List MdNode)
    (hb : ¬ (isTextB h = true ∧ isTextB c = true)) :
    mergeA h (c :: cs) = h :: mergeA c cs := by
  cases h <;> cases c <;> simp_all [mergeA, isTextB]

theorem adjTextFree_single (h : MdNode) : adjTextFree [h] = true := by
  cases h <;> rfl

theorem adjTextFree_cons_of_not_both (x y : MdNode) (l : List MdNode)
    (hb : ¬ (isTextB x = true ∧ isTextB y = true)) :
    adjTextFree (x :: y :: l) = adjTextFree (y :: l) := by
  cases x <;> cases y <;> simp_all [adjTextFree, isTextB]

theorem mergeA_head : ∀ (cs : List MdNode) (h : MdNode),
    ∃ h2 t, mergeA h cs = h2 :: t ∧ isTextB h2 = isTextB h := by
  intro cs
  induction cs with
  | nil => intro h; exact ⟨h, [], rfl, rfl⟩
  | cons c cs ih =>
      intro h
      by_cases hb : isTextB h = true ∧ isTextB c = true
      · obtain ⟨a, ha⟩ := (isTextB_iff h).mp hb.1
        obtain ⟨b, hbv⟩ := (isTextB_iff c).mp hb.2
        subst ha; subst hbv
        obtain ⟨h2, t, he, ht⟩ := ih (.text (a ++ b))
        exact ⟨h2, t, by rw [mergeA_cons_both, he], by simpa [isTextB] using ht⟩
      · exact ⟨h, mergeA c cs, mergeA_cons_of_not_both h c cs hb, rfl⟩

theorem mergeA_adjTextFree : ∀ (cs : List MdNode) (h : MdNode),
    adjTextFree (mergeA h cs) = true := by
  intro cs
  induction cs with
  | nil => intro h; exact adjTextFree_single h
  | cons c cs ih =>
      intro h
      by_cases hb : isTextB h = true ∧ isTextB c = true
      · obtain ⟨a, ha⟩ := (isTextB_iff h).mp hb.1
        obtain ⟨b, hbv⟩ := (isTextB_iff c).mp hb.2
        subst ha; subst hbv
        rw [mergeA_cons_both]
        exact ih (.text (a ++ b))
      · rw [mergeA_cons_of_not_both h c cs hb]
        obtain ⟨h2, t, he, ht⟩ := mergeA_head cs c
        rw [he, adjTextFree_cons_of_not_both h h2 t (by rw [ht]; exact hb),
          ← he]
        exact ih c

theorem mergeA_filter_nontext : ∀ (cs : List MdNode) (h : MdNode),
    (mergeA h cs).filter (fun c => !isTextB c) =
      (h :: cs).filter (fun c => !isTextB c) := by
  intro cs
  induction cs with
  | nil => intro h; rfl
  | cons c cs ih =>
      intro h
      by_cases hb : isTextB h = true ∧ isTextB c = true
      · obtain ⟨a, ha⟩ := (isTextB_iff h).mp hb.1
        obtain ⟨b, hbv⟩ := (isTextB_iff c).mp hb.2
        subst ha; subst hbv
        rw [mergeA_cons_both, ih (.text (a ++ b))]
        simp [List.filter_cons, isTextB]
      · rw [mergeA_cons_of_not_both h c cs hb]
        simp only [List.filter_cons, ih c]

theorem transformCF_adjTextFree (cs : List MdNode) :
    adjTextFree (transformCustomFootnotes cs) = true := by
  unfold transformCustomFootnotes
  cases cs with
  | nil => rfl
  | cons c cs =>
      dsimp only
      cases h2 : tcfGoA c cs with
      | nil => rfl
      | cons c2 cs2 => exact mergeA_adjTextFree cs2 c2

/-- C5: For every sibling list, whenever the Inline Pattern Splicer
finds a text node ending with the two-character open marker `^[`,
followed by a link node with at least one child, followed by a text
node starting with `]`, it emits a single text node consisting of the
first node's value minus its trailing marker concatenated with the
canonical `[^…]` marker wrapping the link's first child's text,
consumes exactly those three nodes, and re-injects the third node's
remaining value (close marker stripped, when nonempty) as a new text
node ahead of the unprocessed remainder, so back-to-back patterns also
match; after all splicing, adjacent text nodes are coalesced by value
concatenation, never merging across a non-text node. -/
theorem claim_C5_inline_pattern_splicer :
    (∀ v1 c0 ls v3 rest3, endsWithCaretOpen v1 = true →
      startsWithCloseBracket v3 = true →
      tcfGoA (.text v1) (.link (c0 :: ls) :: .text v3 :: rest3) =
        .text (v1.dropRight 2 ++ "[^" ++ (valueOf c0).getD "" ++ "]") ::
          (if v3.drop 1 = "" then
            (match rest3 with
             | [] => []
             | r2 :: rs2 => tcfGoA r2 rs2)
           else tcfGoA (.text (v3.drop 1)) rest3)) ∧
    transformCustomFootnotes [.text "a^[", .link [.text "desc"], .text "]b"] =
      [.text "a[^desc]b"] ∧
    transformCustomFootnotes [.text "x^[", .link [.text "d1"], .text "]^[",
        .link [.text "d2"], .text "]y"] = [.text "x[^d1][^d2]y"] ∧
    (∀ cs, adjTextFree (transformCustomFootnotes cs) = true) ∧
    (∀ h cs, (mergeA h cs).filter (fun c => !isTextB c) =
      (h :: cs).filter (fun c => !isTextB c)) :=
  ⟨fun v1 c0 ls v3 rest3 h1 h3 => tcfGoA_step v1 c0 ls v3 rest3 h1 h3,
    rfl, rfl, transformCF_adjTextFree,
    fun h cs => mergeA_filter_nontext cs h⟩

theorem claim_C5_witness :
    tcfGoA (.text "a^[") [.link [.text "desc"], .text "]b"] =
      [.text "a[^desc]", .text "b"] := by
  have h := claim_C5_inline_pattern_splicer.1 "a^[" (.text "desc") [] "]b" []
    rfl rfl
  exact h.trans (by rfl)

/-- C3: counterexample — in a sibling list holding two tables separated
by a non-row node, the pass does reset the in-table flag but never the
first-row flag, so the second table's title is not extracted (its
first cell is left unblanked) and its caption reuses the first table's
title, contradicting the claim that both flags are reset and every
table gets a caption with its own extracted title. -/
theorem claim_C3_counterexample :
    tblRegexFn 0 [.tableRow [.tableCell [.text "A"]], .text "x",
        .tableRow [.tableCell [.text "B"]]] =
      Except.ok (2, [.tableRow [.tableCell [.text ""]],
        .html (tblTitleHtml "一" "A"), .text "x",
        .tableRow [.tableCell [.text "B"]],
        .html (tblTitleHtml "二" "A")]) ∧
    tblTitleHtml "二" "A" ≠ tblTitleHtml "二" "B" :=
  ⟨rfl, by decide⟩

/-- C3 (amended): Each time the in-table state ends (a non-row node
while in-table, or the list ending while in-table), the table counter
is incremented exactly once and one caption node (ordinal plus the
pending title) is emitted positioned after the table's row nodes, and
the in-table flag is reset — but the first-row flag and the pending
title are not reset, so only the first table of the sibling list has
its title extracted and its first cell blanked; a subsequent table in
the same list keeps its first cell intact and its caption reuses the
pending title of the first table. -/
theorem claim_C3_table_numbering :
    (∀ n0 tA tB (mid : MdNode) restA restB cellsA cellsB,
      isTableRowB mid = false → n0 + 2 ≤ 99 →
      tblRegexFn n0 [.tableRow (.tableCell (.text tA :: restA) :: cellsA), mid,
          .tableRow (.tableCell (.text tB :: restB) :: cellsB)] =
        Except.ok (n0 + 2,
          [.tableRow (.tableCell (.text "" :: restA) :: cellsA),
           .html (tblTitleHtml (chineseCore (n0 + 1)) tA), mid,
           .tableRow (.tableCell (.text tB :: restB) :: cellsB),
           .html (tblTitleHtml (chineseCore (n0 + 2)) tA)])) ∧
    (∀ n0 t rest0 cells0, n0 + 1 ≤ 99 →
      tblRegexFn n0 [.tableRow (.tableCell (.text t :: rest0) :: cells0)] =
        Except.ok (n0 + 1,
          [.tableRow (.tableCell (.text "" :: rest0) :: cells0),
           .html (tblTitleHtml (chineseCore (n0 + 1)) t)])) := by
  constructor
  · intro n0 tA tB mid restA restB cellsA cellsB hmid hb
    have h1 : ¬ n0 + 1 < 1 := by omega
    have h2 : ¬ 99 < n0 + 1 := by omega
    have h3 : ¬ n0 + 1 + 1 < 1 := by omega
    have h4 : ¬ 99 < n0 + 1 + 1 := by omega
    have h5 : ¬ n0 + 2 < 1 := by omega
    have h6 : ¬ 99 < n0 + 2 := by omega
    have h7 : n0 + 1 + 1 = n0 + 2 := by omega
    cases mid <;> (try simp [isTableRowB] at hmid) <;>
      simp [tblRegexFn, tblGo, childrenOf, setChildren, setValue, valueOf,
        numberToChineseNat, h1, h2, h3, h4, h7, Except.bind, Bind.bind]
  · intro n0 t rest0 cells0 hb
    have h1 : ¬ n0 + 1 < 1 := by omega
    have h2 : ¬ 99 < n0 + 1 := by omega
    simp [tblRegexFn, tblGo, childrenOf, setChildren, setValue, valueOf,
      numberToChineseNat, h1, h2, Except.bind, Bind.bind]

theorem claim_C3_witness :
    tblRegexFn 0 [.tableRow [.tableCell [.text "Results"]]] =
      Except.ok (1, [.tableRow [.tableCell [.text ""]],
        .html (tblTitleHtml (chineseCore 1) "Results")]) := by
  have h := claim_C3_table_numbering.2 0 "Results" [] [] (by decide)
  simpa using h

set_option maxRecDepth 10000 in
/-- C7: counterexample — running the pipeline a second time (with
freshly initialized counters, as `markdownReplace` always does) on the
output of a first run does not preserve the table-caption count
observed in the document: a single-table document carries one caption
block after one run and two after two runs, because the table's row
nodes are still rows and the caption html node inside the table ends
the row run again. -/
theorem claim_C7_counterexample :
    (match markdownReplace docTbl with
     | .ok (_, t1) =>
        match markdownReplace t1 with
        | .ok (_, t2) => some (countL isTblCaptionNode 1000 [t1],
            countL isTblCaptionNode 1000 [t2])
        | .error _ => none
     | .error _ => none) = some (1, 2) := rfl

set_option maxRecDepth 10000 in
/-- C7 (amended): Running the full pipeline a second time with fresh
state on its own output is not idempotent on the occurrence counts
observed in the document, in two distinct ways, both exhibited here on
concrete documents (`docCounts` lists the figure-block, table-caption,
inline-footnote-reference and footnote-section-block counts).  On
`docFull` — one plain footnote marker, one plain image, one plain
table — no already-rewritten raw-markup fragment is re-matched as a
footnote or figure, so those three counts are identical across the two
runs, while the table-caption count still increases from 1 to 2 (the
table's children are still row nodes and the caption block inserted
among them ends the row run again).  And the stability of the footnote
and figure counts is itself only conditional: the footnote collector
also scans raw-markup children, so on `docAltMarker` the `[^x]` inside
the image's alt text survives the first run inside the emitted figure
block and is collected as a new footnote on the second run, splitting
the figure block into text fragments and reference links — the counts
change from (1, 0, 0, 0) to (0, 0, 2, 2). -/
theorem claim_C7_second_run_counts :
    (match markdownReplace docFull with
     | .ok (_, t1) =>
        match markdownReplace t1 with
        | .ok (_, t2) => some (docCounts t1, docCounts t2)
        | .error _ => none
     | .error _ => none) = some ((1, 1, 1, 1), (1, 2, 1, 1)) ∧
    (match markdownReplace docAltMarker with
     | .ok (_, t1) =>
        match markdownReplace t1 with
        | .ok (_, t2) => some (docCounts t1, docCounts t2)
        | .error _ => none
     | .error _ => none) = some ((1, 0, 0, 0), (0, 0, 2, 2)) :=
  ⟨rfl, rfl⟩
